import Mathlib

set_option maxHeartbeats 1000000
set_option maxRecDepth 16384

/-!
Verification of the Lunii native-pack encoder
(`src/modules/lunii_converter.py` of studio-pack-generator-online).

Byte buffers are modelled as `List Nat` with each element a byte value
(`< 256`); 32-bit machine words are `Nat` with explicit reduction
modulo `2 ^ 32 = 4294967296`.  Python's `&  0xFFFFFFFF` becomes `% M32`,
and Python's wraparound subtraction `(a - b) & 0xFFFFFFFF` (which is
well-defined for negative intermediate values) becomes `sub32`.
-/

namespace SPG

/-- Byte strings are modelled as lists of byte values. -/
abbrev Str := List Nat

/-- Convert a Lean string literal to its byte list (ASCII code points). -/
def str (s : String) : Str := s.data.map Char.toNat

/-! ## XXTEA primitives (lunii_converter.py lines 32-181) -/

/-- The word modulus `2 ^ 32`. -/
def M32 : Nat := 4294967296

/-- Round constant `_XXTEA_DELTA = 0x9E3779B9` (line 37). -/
def _XXTEA_DELTA : Nat := 0x9E3779B9

/-- The fixed V2 common key `XXTEA_KEY_V2` (lines 33-36). -/
def XXTEA_KEY_V2 : Str :=
  [0x91, 0xBD, 0x7A, 0x0A, 0xA7, 0x54, 0x40, 0xA9,
   0xBB, 0xD4, 0x9D, 0x6C, 0xE0, 0xDC, 0xC0, 0xE3]

/-- Addition on 32-bit words: Python `(a + b) & 0xFFFFFFFF`. -/
def add32 (a b : Nat) : Nat := (a + b) % M32

/-- Subtraction on 32-bit words: Python `(a - b) & 0xFFFFFFFF`, which wraps a
negative difference into `[0, 2^32)`. -/
def sub32 (a b : Nat) : Nat := (a + (M32 - b % M32)) % M32

/-- The `mx` round expression shared by `_xxtea_encrypt_uint32` (line 113)
and `_xxtea_decrypt_uint32` (line 137):
`((((z >> 5) ^ (y << 2)) + ((y >> 3) ^ (z << 4))) ^ ((total ^ y) + (k[(p & 3) ^ e] ^ z))) & 0xFFFFFFFF`.
The key index `(p & 3) ^ e` is at most 3; out-of-range key access (which
raises in Python) is modelled by `getD _ 0` and never happens for 4-word keys. -/
def mx (k : List Nat) (total e z y p : Nat) : Nat :=
  ((((z >>> 5) ^^^ (y <<< 2)) + ((y >>> 3) ^^^ (z <<< 4))) ^^^
    ((total ^^^ y) + (k.getD ((p &&& 3) ^^^ e) 0 ^^^ z))) % M32

/-- Last element of a list with default, used to read `v[n]`. -/
def lastD (d : Nat) : List Nat → Nat
  | [] => d
  | [x] => x
  | _ :: y :: rest => lastD d (y :: rest)

/-- The encryption inner loop of `_xxtea_encrypt_uint32` (lines 108-120),
operating on the sublist `v[p..n]`.  The loop `for p in range(n)` updates
`v[p] = (v[p] + mx) & M` with `y = v[p+1]` (still unencrypted) and `z` the
previously updated word; the trailing step at `p = n` uses `y = v[0]`
(already updated this round), passed here as `y0`. -/
def encGo (k : List Nat) (total e y0 z p : Nat) : List Nat → List Nat
  | [] => []
  | [x] => [add32 x (mx k total e z y0 p)]
  | x :: y :: rest =>
    let x' := add32 x (mx k total e z y p)
    x' :: encGo k total e y0 x' (p + 1) (y :: rest)

/-- One iteration of the outer `for _ in range(q)` encryption loop
(lines 108-120): position 0 is updated with `z = v[n]` (the value before
this round) and `y = v[1]`, then `encGo` updates positions `1..n`. -/
def encRound (k : List Nat) (total : Nat) (v : List Nat) : List Nat :=
  match v with
  | [] => []
  | [x] => [x]
  | x :: y :: rest =>
    let e := (total >>> 2) &&& 3
    let z0 := lastD 0 (x :: y :: rest)
    let x' := add32 x (mx k total e z0 y 0)
    x' :: encGo k total e x' x' 1 (y :: rest)

/-- The decryption inner loop of `_xxtea_decrypt_uint32` (lines 133-139),
operating on the sublist `v[p..n]`.  The loop `for p in range(n, 0, -1)`
updates `v[p] = (v[p] - mx) & M` with `z = v[p-1]` (still encrypted,
passed as `zprev`) and `y` the previously updated `v[p+1]` (or `v[0]`,
passed as `y0`, for `p = n`).  Returns the updated sublist together with
the updated value at its head (the `y` handed to the caller). -/
def decGo (k : List Nat) (total e y0 zprev p : Nat) : List Nat → List Nat × Nat
  | [] => ([], y0)
  | [x] =>
    let x' := sub32 x (mx k total e zprev y0 p)
    ([x'], x')
  | x :: y :: rest =>
    let pr := decGo k total e y0 x (p + 1) (y :: rest)
    let x' := sub32 x (mx k total e zprev pr.2 p)
    (x' :: pr.1, x')

/-- One iteration of the outer decryption loop (lines 133-145): positions
`n..1` are updated by `decGo` (with `y` initially the current `v[0]`),
then position 0 is updated with `z = v[n]` (freshly decrypted). -/
def decRound (k : List Nat) (total : Nat) (v : List Nat) : List Nat :=
  match v with
  | [] => []
  | [x] => [x]
  | x :: y :: rest =>
    let e := (total >>> 2) &&& 3
    let pr := decGo k total e x x 1 (y :: rest)
    let zn := lastD 0 pr.1
    sub32 x (mx k total e zn pr.2 0) :: pr.1

/-- The outer encryption loop, `encRounds k rounds total v`: `total` starts
at 0 and each round first advances it by `_XXTEA_DELTA` modulo `2^32`
(line 109). -/
def encRounds (k : List Nat) : Nat → Nat → List Nat → List Nat
  | 0, _, v => v
  | r + 1, total, v =>
    encRounds k r (add32 total _XXTEA_DELTA)
      (encRound k (add32 total _XXTEA_DELTA) v)

/-- The outer decryption loop, `decRounds k rounds total v`: each round uses
the current `total` and then decreases it by `_XXTEA_DELTA` modulo `2^32`
(line 145). -/
def decRounds (k : List Nat) : Nat → Nat → List Nat → List Nat
  | 0, _, v => v
  | r + 1, total, v =>
    decRounds k r (sub32 total _XXTEA_DELTA) (decRound k total v)

/-- Source `_xxtea_encrypt_uint32` (lines 100-122): `q = 52 // n + 1` rounds. -/
def _xxtea_encrypt_uint32 (v k : List Nat) : List Nat :=
  encRounds k (52 / v.length + 1) 0 v

/-- Source `_xxtea_decrypt_uint32` (lines 125-147): `total` starts at
`(q * delta) & 0xFFFFFFFF`. -/
def _xxtea_decrypt_uint32 (v k : List Nat) : List Nat :=
  decRounds k (52 / v.length + 1) ((52 / v.length + 1) * _XXTEA_DELTA % M32) v

/-- Pack four bytes into one little-endian 32-bit word, as the loop
`v[i >> 2] |= data[i] << ((i & 3) << 3)` does (lines 73-74). -/
def pack4 (b0 b1 b2 b3 : Nat) : Nat :=
  b0 ||| (b1 <<< 8) ||| (b2 <<< 16) ||| (b3 <<< 24)

/-- Source `_bytes_to_uint32_le` (lines 67-75): little-endian word packing with
the final partial word zero-padded (`n = ceil(len/4)` words). -/
def _bytes_to_uint32_le : List Nat → List Nat
  | [] => []
  | [b0] => [pack4 b0 0 0 0]
  | [b0, b1] => [pack4 b0 b1 0 0]
  | [b0, b1, b2] => [pack4 b0 b1 b2 0]
  | b0 :: b1 :: b2 :: b3 :: rest => pack4 b0 b1 b2 b3 :: _bytes_to_uint32_le rest

/-- Source `_bytes_to_uint32_be` (lines 78-88): byte `i` of the key contributes to
word `i >> 2` at bit `(i & 3) * 8` *of the reversed byte order*
(`data[length - 1 - i]`), and the word vector is then reversed.  That is
exactly little-endian packing of the reversed byte list, reversed. -/
def _bytes_to_uint32_be (data : List Nat) : List Nat :=
  (_bytes_to_uint32_le data.reverse).reverse

/-- Source `_uint32_to_bytes` (lines 91-97):
`result[i] = (v[i >> 2] >> ((i & 3) << 3)) & 0xFF`. -/
def _uint32_to_bytes : List Nat → List Nat
  | [] => []
  | w :: rest =>
    (w &&& 255) :: ((w >>> 8) &&& 255) :: ((w >>> 16) &&& 255) ::
      ((w >>> 24) &&& 255) :: _uint32_to_bytes rest

/-- Source `xxtea_encrypt` (lines 150-166): empty data and buffers of fewer than
2 words pass through unchanged. -/
def xxtea_encrypt (data key : Str) : Str :=
  if data.length = 0 then data
  else
    let v := _bytes_to_uint32_le data
    let k := _bytes_to_uint32_be key
    if v.length < 2 then data
    else _uint32_to_bytes (_xxtea_encrypt_uint32 v k)

/-- Source `xxtea_decrypt` (lines 169-181). -/
def xxtea_decrypt (data key : Str) : Str :=
  if data.length = 0 then data
  else
    let v := _bytes_to_uint32_le data
    let k := _bytes_to_uint32_be key
    if v.length < 2 then data
    else _uint32_to_bytes (_xxtea_decrypt_uint32 v k)

/-! ## encrypt_first_block (lunii_converter.py lines 209-224) -/

/-- Source `encrypt_first_block(data, encrypt_fn, block_size)`: encrypt the first
`min(block_size, len(data))` bytes; if the ciphertext is longer than the
whole input return it alone, otherwise splice it over the prefix
(`output[:len(encrypted_block)] = encrypted_block`). -/
def encrypt_first_block (data : Str) (encrypt_fn : Str → Str)
    (block_size : Nat) : Str :=
  let first_block := data.take (min block_size data.length)
  let encrypted_block := encrypt_fn first_block
  if data.length < encrypted_block.length then encrypted_block
  else encrypted_block ++ data.drop encrypted_block.length

/-! ## V2 device-specific key and bt generation (lines 230-242, 539-549) -/

/-- Source `v2_compute_specific_key` (lines 230-242): XXTEA-decrypt the UUID bytes
with the common key, then permute with `[11,10,9,8, 15,14,13,12, 3,2,1,0,
7,6,5,4]`.  Python raises on short input; here short input reads 0. -/
def v2_compute_specific_key (uuid_bytes : Str) : Str :=
  let d := xxtea_decrypt uuid_bytes XXTEA_KEY_V2
  [d.getD 11 0, d.getD 10 0, d.getD 9 0, d.getD 8 0,
   d.getD 15 0, d.getD 14 0, d.getD 13 0, d.getD 12 0,
   d.getD 3 0, d.getD 2 0, d.getD 1 0, d.getD 0 0,
   d.getD 7 0, d.getD 6 0, d.getD 5 0, d.getD 4 0]

/-- Source `generate_bt_v2` (lines 539-549): encrypt the first
`min(64, len(ri_encrypted))` bytes of the encrypted `ri` with the
device-specific key. -/
def generate_bt_v2 (ri_encrypted uuid_bytes : Str) : Str :=
  let specific_key := v2_compute_specific_key uuid_bytes
  let first_block := ri_encrypted.take (min 64 ri_encrypted.length)
  xxtea_encrypt first_block specific_key

/-! ## Blank MP3 and audio slot selection (lines 52-62, 574-596, 849-876) -/

/-- Constant `BLANK_MP3` (lines 52-62): the 68 listed bytes followed by 36 zero
bytes - 104 bytes in total. -/
def BLANK_MP3 : Str :=
  [0xFF, 0xFB, 0x90, 0x00, 0x00, 0x00, 0x00, 0x00,
   0x00, 0x00, 0x00, 0x00, 0x00, 0x00, 0x00, 0x00,
   0x00, 0x00, 0x00, 0x00, 0x00, 0x00, 0x00, 0x00,
   0x00, 0x00, 0x00, 0x00, 0x00, 0x00, 0x00, 0x00,
   0x00, 0x00, 0x00, 0x00, 0x58, 0x69, 0x6E, 0x67,
   0x00, 0x00, 0x00, 0x0F, 0x00, 0x00, 0x00, 0x01,
   0x00, 0x00, 0x00, 0x68, 0x00, 0x10, 0x20, 0x30,
   0x40, 0x50, 0x60, 0x70, 0x80, 0x90, 0xA0, 0xB0,
   0xC0, 0xD0, 0xE0, 0xFF] ++ List.replicate 36 0x00

/-! ## Data model

The converter consumes parsed `story.json` dictionaries.  `Option` fields
model Python's `dict.get` falsy checks: `none` stands for a missing key or
an empty-string value (both falsy in the source's `if node.get('image')`
style tests).  The five control flags carry the JSON-level defaults
`{wheel: true, ok: true, home: true, pause: false, autoplay: false}`
already applied (lines 484-489). -/

structure Transition where
  actionNode : Str
  optionIndex : Int

structure ControlSettings where
  wheel : Bool
  ok : Bool
  home : Bool
  pause : Bool
  autoplay : Bool

structure StageNode where
  uuid : Str
  image : Option Str
  audio : Option Str
  okTransition : Option Transition
  homeTransition : Option Transition
  controlSettings : ControlSettings

structure ActionNode where
  id : Str
  options : List Str

structure Story where
  stageNodes : List StageNode
  actionNodes : List ActionNode
  uuid : Option Str
  version : Option Int

structure Asset where
  nodeUuid : Str
  position : Nat
  name : Str

structure ListNode where
  id : Str
  options : List Str
  position : Nat
  absolutePosition : Nat

/-- The `'__BLANK_MP3__'` sentinel asset name (line 593). -/
def blankSentinel : Str := str "__BLANK_MP3__"

/-- Source `build_image_asset_list` (lines 555-571): one entry per StageNode that
has an image, with sequential positions. -/
def build_image_asset_list_from (position : Nat) : List StageNode → List Asset
  | [] => []
  | node :: rest =>
    match node.image with
    | some img =>
      ⟨node.uuid, position, img⟩ :: build_image_asset_list_from (position + 1) rest
    | none => build_image_asset_list_from position rest

def build_image_asset_list (stage_nodes : List StageNode) : List Asset :=
  build_image_asset_list_from 0 stage_nodes

/-- Source `build_audio_asset_list` (lines 574-596): one entry per StageNode (not
deduplicated); a node without audio gets the `'__BLANK_MP3__'` sentinel. -/
def build_audio_asset_list_from (position : Nat) : List StageNode → List Asset
  | [] => []
  | node :: rest =>
    (match node.audio with
     | some audio => Asset.mk node.uuid position audio
     | none => Asset.mk node.uuid position blankSentinel)
      :: build_audio_asset_list_from (position + 1) rest

def build_audio_asset_list (stage_nodes : List StageNode) : List Asset :=
  build_audio_asset_list_from 0 stage_nodes

/-- Source `build_list_nodes_index` (lines 599-615): `absolutePosition` is the
running sum of previous nodes' option counts. -/
def build_list_nodes_index_from (i cursor : Nat) : List ActionNode → List ListNode
  | [] => []
  | action :: rest =>
    ⟨action.id, action.options, i, cursor⟩ ::
      build_list_nodes_index_from (i + 1) (cursor + action.options.length) rest

def build_list_nodes_index (action_nodes : List ActionNode) : List ListNode :=
  build_list_nodes_index_from 0 0 action_nodes

/-! ## struct.pack helpers

`struct.pack_into('<i', ...)` writes contiguous little-endian fields; the
byte-offset-addressed buffer of the source is equivalent to concatenating
the fields in offset order, which is how `generate_ni` is rendered below.
Python's `struct.pack` raises on out-of-range values instead of wrapping;
the theorems below only use in-range values. -/

/-- Little-endian serialization of `x` into `count` bytes. -/
def natToLEBytes : Nat → Nat → Str
  | 0, _ => []
  | count + 1, x => x % 256 :: natToLEBytes count (x / 256)

/-- Python `struct.pack('<H', x)`. -/
def packU16 (x : Nat) : Str := natToLEBytes 2 (x % 65536)

/-- Python `struct.pack('<h', x)` (two's complement). -/
def packI16 (x : Int) : Str := natToLEBytes 2 (x.emod 65536).toNat

/-- Python `struct.pack('<i', x)` (two's complement). -/
def packI32 (x : Int) : Str := natToLEBytes 4 (x.emod 4294967296).toNat

/-- Python `struct.pack('<b', x)`. -/
def packI8 (x : Int) : Str := [(x.emod 256).toNat]

/-- Python-dict lookup built by insertion (`d[k] = v` in list order, later
entries overwriting earlier ones): find the last binding. -/
def dictGet (entries : List (Str × Nat)) (key : Str) : Option Nat :=
  (entries.reverse.find? (fun e => e.1 == key)).map (·.2)

/-- Source `image_name_to_pos` (lines 417-419). -/
def image_name_to_pos (image_assets : List Asset) (name : Str) : Option Nat :=
  dictGet (image_assets.map (fun a => (a.name, a.position))) name

/-- Source `audio_name_to_pos` (lines 422-424), keyed by `nodeUuid`. -/
def audio_name_to_pos (audio_assets : List Asset) (u : Str) : Option Nat :=
  dictGet (audio_assets.map (fun a => (a.nodeUuid, a.position))) u

/-- Source `list_node_by_id` (lines 427-429), last binding wins. -/
def list_node_by_id (list_nodes : List ListNode) (id : Str) : Option ListNode :=
  list_nodes.reverse.find? (fun ln => ln.id == id)

/-- The three i32 fields of one transition in a `ni` node (lines 448-481). -/
def ni_transition_bytes (list_nodes : List ListNode) : Option Transition → Str
  | some t =>
    match list_node_by_id list_nodes t.actionNode with
    | some ln =>
      packI32 ln.absolutePosition ++ packI32 ln.options.length
        ++ packI32 t.optionIndex
    | none => packI32 (-1) ++ packI32 (-1) ++ packI32 (-1)
  | none => packI32 (-1) ++ packI32 (-1) ++ packI32 (-1)

/-- The 44-byte `ni` record of one StageNode (lines 433-492). -/
def ni_node_bytes (image_assets audio_assets : List Asset)
    (list_nodes : List ListNode) (node : StageNode) : Str :=
  (match node.image with
   | some img =>
     match image_name_to_pos image_assets img with
     | some p => packI32 p
     | none => packI32 (-1)
   | none => packI32 (-1)) ++
  packI32 (match audio_name_to_pos audio_assets node.uuid with
    | some p => (p : Int)
    | none => -1) ++
  ni_transition_bytes list_nodes node.okTransition ++
  ni_transition_bytes list_nodes node.homeTransition ++
  packI16 (if node.controlSettings.wheel then 1 else 0) ++
  packI16 (if node.controlSettings.ok then 1 else 0) ++
  packI16 (if node.controlSettings.home then 1 else 0) ++
  packI16 (if node.controlSettings.pause then 1 else 0) ++
  packI16 (if node.controlSettings.autoplay then 1 else 0) ++
  packI16 0

/-- Source `generate_ni` (lines 371-494): 512-byte header (fields at offsets
0,2,4,8,12,16,20,24, zero padding to 512) followed by one 44-byte record
per StageNode.  `action_nodes` is accepted but unused, as in the source. -/
def generate_ni (stage_nodes : List StageNode) (action_nodes : List ActionNode)
    (image_assets audio_assets : List Asset) (list_nodes : List ListNode)
    (pack_version : Int) : Str :=
  let header := packU16 1 ++ packI16 pack_version ++ packI32 512 ++ packI32 44
    ++ packI32 stage_nodes.length ++ packI32 image_assets.length
    ++ packI32 audio_assets.length ++ packI8 1 ++ List.replicate 487 0
  header ++ (stage_nodes.map (ni_node_bytes image_assets audio_assets list_nodes)).flatten

/-- Python zero-padded 8-digit decimal rendering of `i`, as ASCII codes,
faithful for `i < 10 ^ 8` (the source never indexes 100 million assets,
where Python would print more than 8 digits). -/
def pad8 (n : Nat) : Str :=
  (List.range 8).reverse.map (fun p => 48 + n / 10 ^ p % 10)

/-- Source `generate_asset_binary` (lines 525-536): `"000\XXXXXXXX"` per asset. -/
def generate_asset_binary (asset_list : List Asset) : Str :=
  ((List.range asset_list.length).map (fun i => str "000\\" ++ pad8 i)).flatten

/-! ## Validation and conversion entry (lines 621-695, 735-789, 849-876) -/

/-- An input ZIP: its entry names and the parsed `story.json`.  (A ZIP
whose `story.json` fails to parse makes `validate_studio_pack` return
false with a JSON error; that failure path is outside this model.) -/
structure ZipFile where
  names : List Str
  story : Story

/-- The boolean verdict of `validate_studio_pack` (lines 656-695):
`story.json` must be present, `stageNodes` non-empty, and every referenced
image/audio asset present at the root or under `assets/`.  The French
message component of the returned pair is dropped. -/
def validate_studio_pack (z : ZipFile) : Bool :=
  if (str "story.json") ∈ z.names then
    if z.story.stageNodes.isEmpty then false
    else
      let images := z.story.stageNodes.filterMap (·.image)
      let audios := z.story.stageNodes.filterMap (·.audio)
      let missing :=
        images.filter (fun a =>
          !(z.names.contains a || z.names.contains (str "assets/" ++ a)))
        ++ audios.filter (fun a =>
          !(z.names.contains a || z.names.contains (str "assets/" ++ a)))
      missing.isEmpty
  else false

/-- Assignment `pack_version = story.get('version', 2)` (line 782). -/
def pack_version_of (story : Story) : Int := story.version.getD 2

/-- Assignment `story_uuid = story.get('uuid') or (stage_nodes[0]['uuid'] if
stage_nodes else str(pack_uuid))` (lines 785-787).  `fresh` stands for the
freshly generated `uuid.uuid4()`. -/
def story_uuid_of (story : Story) (fresh : Str) : Str :=
  match story.uuid with
  | some u => u
  | none =>
    match story.stageNodes with
    | node :: _ => node.uuid
    | [] => fresh

/-- ASCII upper-casing of one byte (`str.upper` on hex characters). -/
def upperByte (c : Nat) : Nat := if 97 ≤ c ∧ c ≤ 122 then c - 32 else c

/-- Assignment `pack_ref = story_uuid.replace('-', '')[-8:].upper()` (line 789). -/
def pack_ref_of (story_uuid : Str) : Str :=
  let s := story_uuid.filter (fun c => c != 45)
  (s.drop (s.length - 8)).map upperByte

/-- The `ni` file of a conversion run, with the inputs derived from the
story exactly as `_do_convert` does (lines 778-789, 801-805, 884-885). -/
def ni_of_story (story : Story) : Str :=
  generate_ni story.stageNodes story.actionNodes
    (build_image_asset_list story.stageNodes)
    (build_audio_asset_list story.stageNodes)
    (build_list_nodes_index story.actionNodes)
    (pack_version_of story)

/-- The MP3 bytes selected for one audio-asset entry in the conversion
loop (lines 849-870): the `'__BLANK_MP3__'` sentinel yields `BLANK_MP3`;
otherwise `transcoded` models path resolution plus ffmpeg conversion
(`none` covers both a missing source file and a failed conversion, which
the source logs and replaces with `BLANK_MP3`). -/
def mp3_data_for (asset_name : Str) (transcoded : Str → Option Str) : Str :=
  if asset_name = blankSentinel then BLANK_MP3
  else
    match transcoded asset_name with
    | some mp3 => mp3
    | none => BLANK_MP3

/-- The bytes written to `sf/000/<pos>` for one audio asset (lines
872-876). -/
def sf_file_bytes (asset_name : Str) (transcoded : Str → Option Str)
    (encrypt_fn : Str → Str) : Str :=
  encrypt_first_block (mp3_data_for asset_name transcoded) encrypt_fn 512

/-- Constant `".content/"` as bytes. -/
def contentMark : Str := str ".content/"

/-- Worker for Python `s.replace(pat, '')`: walk the string; with
`skip = 0`, a prefix match of `pat` at the current position deletes it
(the current character is dropped and the remaining `pat.length - 1`
matched characters are skipped via the counter); otherwise the character
is kept.  This is Python's left-to-right non-overlapping replacement.
(For the empty pattern - which the source never passes here - this
deletes everything, unlike Python's interleaving.) -/
def replaceAllGo (pat : Str) : Str → Nat → Str
  | [], _ => []
  | _ :: rest, skip + 1 => replaceAllGo pat rest skip
  | c :: rest, 0 =>
    if pat.isPrefixOf (c :: rest) then replaceAllGo pat rest (pat.length - 1)
    else c :: replaceAllGo pat rest 0

/-- Python `s.replace(pat, '')`. -/
def replaceAll (pat : Str) (s : Str) : Str := replaceAllGo pat s 0

/-- Whether `pat` occurs as a contiguous substring of `s` (Python
`pat in s`; used to reason about `str.replace`). -/
def occurs (pat : Str) : Str → Bool
  | [] => pat.isEmpty
  | c :: rest => pat.isPrefixOf (c :: rest) || occurs pat rest

/-- The refs collected by `is_lunii_pack` (lines 626-637): the second
`/`-component of every `.content/`-prefixed entry name, when non-empty.
(The source stores them in a `set`; a list with duplicates checks the same
conjunction.) -/
def refsOf (names : List Str) : List Str :=
  (names.filter (fun n => contentMark.isPrefixOf n)).filterMap (fun n =>
    match List.splitOn 47 n with
    | _ :: r :: _ => if r.isEmpty then none else some r
    | _ => none)

/-- The `.content/<ref>/` entry-name prefix of one ref. -/
def refMark (ref : Str) : Str := contentMark ++ ref ++ [47]

/-- Source `ref_files` for one ref (line 641): strip the `.content/<ref>/` prefix
from every matching entry name via `str.replace`. -/
def ref_files_of (names : List Str) (ref : Str) : List Str :=
  let pfxRef := contentMark ++ ref ++ [47]
  (names.filter (fun n => pfxRef.isPrefixOf n)).map (fun n => replaceAll pfxRef n)

/-- The per-ref completeness check of `is_lunii_pack` (lines 639-648):
`ni, li, ri, si` all present and at least one entry under each of `rf/`
and `sf/`. -/
def ref_ok (names : List Str) (ref : Str) : Bool :=
  let files := ref_files_of names ref
  files.contains (str "ni") && files.contains (str "li") &&
  files.contains (str "ri") && files.contains (str "si") &&
  files.any (fun f => (str "rf/").isPrefixOf f) &&
  files.any (fun f => (str "sf/").isPrefixOf f)

/-- Source `is_lunii_pack` (lines 621-653). -/
def is_lunii_pack (names : List Str) : Bool :=
  let content_dirs := names.filter (fun n => contentMark.isPrefixOf n)
  if content_dirs.isEmpty then false
  else if (refsOf names).isEmpty then false
  else (refsOf names).all (ref_ok names)

/-- The dispatch of `LuniiPackConverter.convert` (lines 735-754): when the
input ZIP is already a Lunii pack the method returns `self.zip_path`
before any conversion work or file writes; otherwise conversion proceeds
and produces `output_path`. -/
def convert_result (names : List Str) (input_path output_path : Str) : Str :=
  if is_lunii_pack names then input_path else output_path

/-- Read back a signed 16-bit little-endian field (inverse of
`struct.pack('<h', _)`, as `struct.unpack_from('<h', ...)` does). -/
def decodeI16 (b0 b1 : Nat) : Int :=
  if b0 + 256 * b1 < 32768 then ((b0 + 256 * b1 : Nat) : Int)
  else ((b0 + 256 * b1 : Nat) : Int) - 65536

/-- Defaults used only to state positional lookups with `getD`. -/
def defaultControl : ControlSettings := ⟨true, true, true, false, false⟩

def defaultStage : StageNode := ⟨[], none, none, none, none, defaultControl⟩

def defaultAsset : Asset := ⟨[], 0, []⟩

/-! ## XXTEA inversion: word level -/

theorem add32_lt (a b : Nat) : add32 a b < M32 :=
  Nat.mod_lt _ (by norm_num [M32])

theorem sub32_lt (a b : Nat) : sub32 a b < M32 :=
  Nat.mod_lt _ (by norm_num [M32])

theorem sub32_add32 {a : Nat} (m : Nat) (h : a < M32) : sub32 (add32 a m) m = a := by
  simp only [add32, sub32, M32] at *
  omega

theorem encGo_length (k : List Nat) (total e y0 : Nat) (l : List Nat) :
    ∀ z p : Nat, (encGo k total e y0 z p l).length = l.length := by
  induction l with
  | nil => intro z p; rfl
  | cons x t ih =>
    intro z p
    cases t with
    | nil => rfl
    | cons y rest =>
      simp only [encGo, List.length_cons]
      rw [ih]
      simp

theorem encGo_mem_lt (k : List Nat) (total e y0 : Nat) (l : List Nat) :
    ∀ (z p a : Nat), a ∈ encGo k total e y0 z p l → a < M32 := by
  induction l with
  | nil => intro z p a ha; simp [encGo] at ha
  | cons x t ih =>
    intro z p a ha
    cases t with
    | nil =>
      simp only [encGo, List.mem_singleton] at ha
      subst ha
      exact add32_lt _ _
    | cons y rest =>
      simp only [encGo, List.mem_cons] at ha
      rcases ha with rfl | ha
      · exact add32_lt _ _
      · exact ih _ _ a ha

theorem decGo_encGo (k : List Nat) (total e y0 : Nat) (l : List Nat) :
    ∀ z p : Nat, (∀ a ∈ l, a < M32) →
      decGo k total e y0 z p (encGo k total e y0 z p l) = (l, l.headD y0) := by
  induction l with
  | nil => intro z p _; rfl
  | cons x t ih =>
    intro z p hl
    have hx : x < M32 := hl x (by simp)
    cases t with
    | nil =>
      simp only [encGo, decGo]
      rw [sub32_add32 _ hx]
      simp
    | cons y rest =>
      have hl' : ∀ a ∈ y :: rest, a < M32 := fun a ha => hl a (by simp [ha])
      simp only [encGo]
      rcases hE : encGo k total e y0 (add32 x (mx k total e z y p)) (p + 1) (y :: rest)
        with _ | ⟨e0, E⟩
      · have hlen := encGo_length k total e y0 (y :: rest)
          (add32 x (mx k total e z y p)) (p + 1)
        rw [hE] at hlen
        simp at hlen
      · simp only [decGo]
        rw [← hE, ih (add32 x (mx k total e z y p)) (p + 1) hl']
        simp only [List.headD_cons]
        rw [sub32_add32 _ hx]

theorem decRound_encRound (k : List Nat) (t : Nat) (v : List Nat)
    (hv : ∀ a ∈ v, a < M32) : decRound k t (encRound k t v) = v := by
  rcases v with _ | ⟨x, _ | ⟨y, rest⟩⟩
  · rfl
  · rfl
  · have hx : x < M32 := hv x (by simp)
    have hl' : ∀ a ∈ y :: rest, a < M32 := fun a ha => hv a (by simp [ha])
    simp only [encRound]
    rw [show lastD 0 (x :: y :: rest) = lastD 0 (y :: rest) from rfl]
    rcases hE : encGo k t ((t >>> 2) &&& 3)
        (add32 x (mx k t ((t >>> 2) &&& 3) (lastD 0 (y :: rest)) y 0))
        (add32 x (mx k t ((t >>> 2) &&& 3) (lastD 0 (y :: rest)) y 0)) 1 (y :: rest)
      with _ | ⟨e0, E⟩
    · have hlen := encGo_length k t ((t >>> 2) &&& 3)
        (add32 x (mx k t ((t >>> 2) &&& 3) (lastD 0 (y :: rest)) y 0)) (y :: rest)
        (add32 x (mx k t ((t >>> 2) &&& 3) (lastD 0 (y :: rest)) y 0)) 1
      rw [hE] at hlen
      simp at hlen
    · simp only [decRound]
      rw [← hE, decGo_encGo k t ((t >>> 2) &&& 3)
        (add32 x (mx k t ((t >>> 2) &&& 3) (lastD 0 (y :: rest)) y 0)) (y :: rest)
        (add32 x (mx k t ((t >>> 2) &&& 3) (lastD 0 (y :: rest)) y 0)) 1 hl']
      simp only [List.headD_cons]
      rw [sub32_add32 _ hx]

theorem encRound_length (k : List Nat) (t : Nat) (v : List Nat) :
    (encRound k t v).length = v.length := by
  rcases v with _ | ⟨x, _ | ⟨y, rest⟩⟩
  · rfl
  · rfl
  · simp only [encRound, List.length_cons]
    rw [encGo_length]
    simp

theorem encRound_mem_lt (k : List Nat) (t : Nat) (v : List Nat)
    (hv : ∀ a ∈ v, a < M32) : ∀ a ∈ encRound k t v, a < M32 := by
  rcases v with _ | ⟨x, _ | ⟨y, rest⟩⟩
  · exact hv
  · exact hv
  · intro a ha
    simp only [encRound, List.mem_cons] at ha
    rcases ha with rfl | ha
    · exact add32_lt _ _
    · exact encGo_mem_lt _ _ _ _ _ _ _ a ha

theorem encRounds_length (k : List Nat) (r : Nat) :
    ∀ (t : Nat) (v : List Nat), (encRounds k r t v).length = v.length := by
  induction r with
  | zero => intro t v; rfl
  | succ r ih =>
    intro t v
    rw [encRounds.eq_2, ih, encRound_length]

theorem encRounds_mem_lt (k : List Nat) (r : Nat) :
    ∀ (t : Nat) (v : List Nat), (∀ a ∈ v, a < M32) →
      ∀ a ∈ encRounds k r t v, a < M32 := by
  induction r with
  | zero => intro t v hv; exact hv
  | succ r ih =>
    intro t v hv
    rw [encRounds.eq_2]
    exact ih _ _ (encRound_mem_lt _ _ _ hv)

theorem decRounds_peel_last (k : List Nat) (r : Nat) :
    ∀ (t : Nat) (w : List Nat), t < M32 →
      decRounds k (r + 1) t w
        = decRound k ((t + r * (M32 - _XXTEA_DELTA)) % M32) (decRounds k r t w) := by
  induction r with
  | zero =>
    intro t w ht
    have hz : (t + 0 * (M32 - _XXTEA_DELTA)) % M32 = t := by
      simp only [M32, _XXTEA_DELTA] at *
      omega
    rw [hz]
    rfl
  | succ r ih =>
    intro t w ht
    have h1 : decRounds k (r + 1 + 1) t w
        = decRounds k (r + 1) (sub32 t _XXTEA_DELTA) (decRound k t w) := by
      rw [decRounds.eq_2]
    rw [h1, ih (sub32 t _XXTEA_DELTA) (decRound k t w) (sub32_lt _ _)]
    have h2 : decRounds k (r + 1) t w
        = decRounds k r (sub32 t _XXTEA_DELTA) (decRound k t w) := by
      rw [decRounds.eq_2]
    rw [h2]
    have h3 : (sub32 t _XXTEA_DELTA + r * (M32 - _XXTEA_DELTA)) % M32
        = (t + (r + 1) * (M32 - _XXTEA_DELTA)) % M32 := by
      simp only [sub32, M32, _XXTEA_DELTA]
      omega
    rw [h3]

theorem decRounds_encRounds (k : List Nat) (r : Nat) :
    ∀ (t : Nat) (v : List Nat), t < M32 → (∀ a ∈ v, a < M32) →
      decRounds k r ((t + r * _XXTEA_DELTA) % M32) (encRounds k r t v) = v := by
  induction r with
  | zero =>
    intro t v _ _
    rfl
  | succ r ih =>
    intro t v ht hv
    rw [encRounds.eq_2]
    rw [decRounds_peel_last k r _ _ (Nat.mod_lt _ (by norm_num [M32]))]
    have hT : (t + (r + 1) * _XXTEA_DELTA) % M32
        = (add32 t _XXTEA_DELTA + r * _XXTEA_DELTA) % M32 := by
      simp only [add32, M32, _XXTEA_DELTA]
      omega
    rw [hT, ih (add32 t _XXTEA_DELTA) (encRound k (add32 t _XXTEA_DELTA) v)
      (add32_lt _ _) (encRound_mem_lt _ _ _ hv)]
    have hT2 : ((add32 t _XXTEA_DELTA + r * _XXTEA_DELTA) % M32
        + r * (M32 - _XXTEA_DELTA)) % M32 = add32 t _XXTEA_DELTA := by
      simp only [add32, M32, _XXTEA_DELTA]
      omega
    rw [hT2]
    exact decRound_encRound k _ v hv

theorem uint32_roundtrip (v k : List Nat) (hv : ∀ a ∈ v, a < M32) :
    _xxtea_decrypt_uint32 (_xxtea_encrypt_uint32 v k) k = v := by
  unfold _xxtea_encrypt_uint32 _xxtea_decrypt_uint32
  rw [encRounds_length]
  have := decRounds_encRounds k (52 / v.length + 1) 0 v (by norm_num [M32]) hv
  rw [Nat.zero_add] at this
  exact this

/-! ## XXTEA inversion: byte packing -/

theorem lor_shl_add {a : Nat} (b n : Nat) (h : a < 2 ^ n) :
    a ||| b <<< n = a + b <<< n := by
  apply Nat.eq_of_testBit_eq
  intro i
  rw [Nat.testBit_or, Nat.testBit_shiftLeft]
  by_cases hik : n ≤ i
  · have ha : a.testBit i = false :=
      Nat.testBit_lt_two_pow
        (Nat.lt_of_lt_of_le h (Nat.pow_le_pow_right (by norm_num) hik))
    have h1 : (a + b <<< n) >>> n = b := by
      rw [Nat.shiftLeft_eq, Nat.shiftRight_eq_div_pow,
        Nat.add_mul_div_right _ _ (Nat.two_pow_pos n), Nat.div_eq_of_lt h,
        Nat.zero_add]
    have hx : (a + b <<< n).testBit i = b.testBit (i - n) := by
      have ht : ((a + b <<< n) >>> n).testBit (i - n)
          = (a + b <<< n).testBit (n + (i - n)) := Nat.testBit_shiftRight _
      rw [h1] at ht
      rw [ht]
      congr 1
      omega
    rw [hx, ha]
    simp [hik]
  · have h1 : (a + b <<< n) % 2 ^ n = a := by
      rw [Nat.shiftLeft_eq, Nat.add_mul_mod_self_right, Nat.mod_eq_of_lt h]
    have hx : (a + b <<< n).testBit i = a.testBit i := by
      conv_rhs => rw [← h1]
      rw [Nat.testBit_mod_two_pow]
      simp [show i < n by omega]
    rw [hx]
    simp [hik]

theorem pack4_eq {b0 b1 b2 b3 : Nat} (h0 : b0 < 256) (h1 : b1 < 256)
    (h2 : b2 < 256) (h3 : b3 < 256) :
    pack4 b0 b1 b2 b3 = b0 + b1 * 256 + b2 * 65536 + b3 * 16777216 := by
  unfold pack4
  rw [lor_shl_add b1 8 (by omega)]
  rw [lor_shl_add b2 16 (by rw [Nat.shiftLeft_eq]; omega)]
  rw [lor_shl_add b3 24 (by rw [Nat.shiftLeft_eq, Nat.shiftLeft_eq]; omega)]
  simp [Nat.shiftLeft_eq]

theorem pack4_lt {b0 b1 b2 b3 : Nat} (h0 : b0 < 256) (h1 : b1 < 256)
    (h2 : b2 < 256) (h3 : b3 < 256) : pack4 b0 b1 b2 b3 < M32 := by
  rw [pack4_eq h0 h1 h2 h3]
  simp only [M32]
  omega

theorem and255_eq_mod (x : Nat) : x &&& 255 = x % 256 := by
  have h := Nat.and_pow_two_sub_one_eq_mod x 8
  norm_num at h
  exact h

theorem unpack4_b0 {b0 b1 b2 b3 : Nat} (h0 : b0 < 256) (h1 : b1 < 256)
    (h2 : b2 < 256) (h3 : b3 < 256) : pack4 b0 b1 b2 b3 &&& 255 = b0 := by
  rw [and255_eq_mod, pack4_eq h0 h1 h2 h3]
  omega

theorem unpack4_b1 {b0 b1 b2 b3 : Nat} (h0 : b0 < 256) (h1 : b1 < 256)
    (h2 : b2 < 256) (h3 : b3 < 256) :
    (pack4 b0 b1 b2 b3 >>> 8) &&& 255 = b1 := by
  rw [and255_eq_mod, Nat.shiftRight_eq_div_pow, pack4_eq h0 h1 h2 h3]
  norm_num
  omega

theorem unpack4_b2 {b0 b1 b2 b3 : Nat} (h0 : b0 < 256) (h1 : b1 < 256)
    (h2 : b2 < 256) (h3 : b3 < 256) :
    (pack4 b0 b1 b2 b3 >>> 16) &&& 255 = b2 := by
  rw [and255_eq_mod, Nat.shiftRight_eq_div_pow, pack4_eq h0 h1 h2 h3]
  norm_num
  omega

theorem unpack4_b3 {b0 b1 b2 b3 : Nat} (h0 : b0 < 256) (h1 : b1 < 256)
    (h2 : b2 < 256) (h3 : b3 < 256) :
    (pack4 b0 b1 b2 b3 >>> 24) &&& 255 = b3 := by
  rw [and255_eq_mod, Nat.shiftRight_eq_div_pow, pack4_eq h0 h1 h2 h3]
  norm_num
  omega

/-- Repacking the four extracted bytes of a 32-bit word gives it back. -/
theorem pack4_unpack (w : Nat) (hw : w < M32) :
    pack4 (w &&& 255) ((w >>> 8) &&& 255) ((w >>> 16) &&& 255)
      ((w >>> 24) &&& 255) = w := by
  rw [pack4_eq (by rw [and255_eq_mod]; omega) (by rw [and255_eq_mod]; omega)
    (by rw [and255_eq_mod]; omega) (by rw [and255_eq_mod]; omega)]
  simp only [and255_eq_mod, Nat.shiftRight_eq_div_pow]
  simp only [M32] at hw
  norm_num
  omega

/-- Bytes of `_uint32_to_bytes` are byte values. -/
theorem _uint32_to_bytes_mem_lt : ∀ (w : List Nat), ∀ b ∈ _uint32_to_bytes w, b < 256
  | [], _, hb => by simp [_uint32_to_bytes] at hb
  | x :: rest, b, hb => by
    simp only [_uint32_to_bytes, List.mem_cons] at hb
    rcases hb with rfl | rfl | rfl | rfl | hb
    · rw [and255_eq_mod]; omega
    · rw [and255_eq_mod]; omega
    · rw [and255_eq_mod]; omega
    · rw [and255_eq_mod]; omega
    · exact _uint32_to_bytes_mem_lt rest b hb

theorem _uint32_to_bytes_length : ∀ (w : List Nat),
    (_uint32_to_bytes w).length = 4 * w.length
  | [] => rfl
  | x :: rest => by
    simp only [_uint32_to_bytes, List.length_cons]
    rw [_uint32_to_bytes_length rest]
    omega

theorem _bytes_to_uint32_le_length : ∀ (data : List Nat),
    (_bytes_to_uint32_le data).length = (data.length + 3) / 4
  | [] => rfl
  | [_] => by simp [_bytes_to_uint32_le]
  | [_, _] => by simp [_bytes_to_uint32_le]
  | [_, _, _] => by simp [_bytes_to_uint32_le]
  | _ :: _ :: _ :: _ :: rest => by
    simp only [_bytes_to_uint32_le, List.length_cons]
    rw [_bytes_to_uint32_le_length rest]
    omega

theorem _bytes_to_uint32_le_mem_lt : ∀ (data : List Nat),
    (∀ b ∈ data, b < 256) → ∀ a ∈ _bytes_to_uint32_le data, a < M32
  | [], _, a, ha => by simp [_bytes_to_uint32_le] at ha
  | [b0], hb, a, ha => by
    simp only [_bytes_to_uint32_le, List.mem_singleton] at ha
    subst ha
    exact pack4_lt (hb b0 (by simp)) (by omega) (by omega) (by omega)
  | [b0, b1], hb, a, ha => by
    simp only [_bytes_to_uint32_le, List.mem_singleton] at ha
    subst ha
    exact pack4_lt (hb b0 (by simp)) (hb b1 (by simp)) (by omega) (by omega)
  | [b0, b1, b2], hb, a, ha => by
    simp only [_bytes_to_uint32_le, List.mem_singleton] at ha
    subst ha
    exact pack4_lt (hb b0 (by simp)) (hb b1 (by simp)) (hb b2 (by simp))
      (by omega)
  | b0 :: b1 :: b2 :: b3 :: rest, hb, a, ha => by
    simp only [_bytes_to_uint32_le, List.mem_cons] at ha
    rcases ha with rfl | ha
    · exact pack4_lt (hb b0 (by simp)) (hb b1 (by simp)) (hb b2 (by simp))
        (hb b3 (by simp))
    · exact _bytes_to_uint32_le_mem_lt rest
        (fun b h => hb b (by simp [h])) a ha

/-- Unpacking then repacking a word list is the identity. -/
theorem words_bytes_words : ∀ (w : List Nat), (∀ a ∈ w, a < M32) →
    _bytes_to_uint32_le (_uint32_to_bytes w) = w
  | [], _ => rfl
  | x :: rest, hw => by
    have hx : x < M32 := hw x (by simp)
    simp only [_uint32_to_bytes, _bytes_to_uint32_le]
    rw [pack4_unpack x hx, words_bytes_words rest (fun a ha => hw a (by simp [ha]))]

/-- Packing then unpacking a 4-aligned byte list is the identity. -/
theorem bytes_words_bytes : ∀ (data : List Nat), data.length % 4 = 0 →
    (∀ b ∈ data, b < 256) → _uint32_to_bytes (_bytes_to_uint32_le data) = data
  | [], _, _ => rfl
  | [_], h, _ => by simp at h
  | [_, _], h, _ => by simp at h
  | [_, _, _], h, _ => by simp at h
  | b0 :: b1 :: b2 :: b3 :: rest, h, hb => by
    have h0 : b0 < 256 := hb b0 (by simp)
    have h1 : b1 < 256 := hb b1 (by simp)
    have h2 : b2 < 256 := hb b2 (by simp)
    have h3 : b3 < 256 := hb b3 (by simp)
    simp only [_bytes_to_uint32_le, _uint32_to_bytes]
    rw [unpack4_b0 h0 h1 h2 h3, unpack4_b1 h0 h1 h2 h3,
      unpack4_b2 h0 h1 h2 h3, unpack4_b3 h0 h1 h2 h3,
      bytes_words_bytes rest (by simp at h; omega)
        (fun b hbm => hb b (by simp [hbm]))]

/-- XXTEA roundtrip at the byte level for word-aligned buffers of at least
two words: decrypt after encrypt restores the plaintext, for any key. -/
theorem xxtea_roundtrip (data key : Str) (halign : data.length % 4 = 0)
    (hlen : 8 ≤ data.length) (hbytes : ∀ b ∈ data, b < 256) :
    xxtea_decrypt (xxtea_encrypt data key) key = data := by
  have hne : ¬ data.length = 0 := by omega
  have hwords : (_bytes_to_uint32_le data).length = data.length / 4 := by
    rw [_bytes_to_uint32_le_length]
    omega
  have hw2 : ¬ (_bytes_to_uint32_le data).length < 2 := by
    rw [hwords]
    omega
  have hvlt : ∀ a ∈ _bytes_to_uint32_le data, a < M32 :=
    _bytes_to_uint32_le_mem_lt data hbytes
  rw [xxtea_encrypt]
  simp only [hne, if_false, hw2, if_false]
  have henclt : ∀ a ∈ _xxtea_encrypt_uint32 (_bytes_to_uint32_le data)
      (_bytes_to_uint32_be key), a < M32 := by
    unfold _xxtea_encrypt_uint32
    intro a ha
    exact encRounds_mem_lt _ _ _ _ hvlt a ha
  have hlen2 : (_uint32_to_bytes (_xxtea_encrypt_uint32 (_bytes_to_uint32_le data)
      (_bytes_to_uint32_be key))).length = data.length := by
    rw [_uint32_to_bytes_length]
    unfold _xxtea_encrypt_uint32
    rw [encRounds_length, hwords]
    omega
  rw [xxtea_decrypt]
  simp only [hlen2, hne, if_false]
  rw [words_bytes_words _ henclt]
  have hwl : (_xxtea_encrypt_uint32 (_bytes_to_uint32_le data)
      (_bytes_to_uint32_be key)).length = (_bytes_to_uint32_le data).length := by
    unfold _xxtea_encrypt_uint32
    rw [encRounds_length]
  simp only [hwl, hw2, if_false]
  rw [uint32_roundtrip _ _ hvlt]
  exact bytes_words_bytes data halign hbytes

/-- For word-aligned buffers, V2 encryption preserves the byte length
(including the pass-through cases of length 0 and length 4). -/
theorem xxtea_encrypt_length_aligned (data key : Str) (h : data.length % 4 = 0) :
    (xxtea_encrypt data key).length = data.length := by
  rw [xxtea_encrypt]
  by_cases h0 : data.length = 0
  · simp [h0]
  · simp only [h0, if_false]
    by_cases h2 : (_bytes_to_uint32_le data).length < 2
    · simp [h2]
    · simp only [h2, if_false]
      rw [_uint32_to_bytes_length]
      unfold _xxtea_encrypt_uint32
      rw [encRounds_length, _bytes_to_uint32_le_length]
      omega

/-- For buffers of at least 8 bytes whose length is not a multiple of 4,
V2 encryption emits `4 * ceil(len / 4)` bytes. -/
theorem xxtea_encrypt_length_unaligned (data key : Str) (h : data.length % 4 ≠ 0)
    (h8 : 8 ≤ data.length) :
    (xxtea_encrypt data key).length = 4 * ((data.length + 3) / 4) := by
  rw [xxtea_encrypt]
  have h0 : ¬ data.length = 0 := by omega
  have h2 : ¬ (_bytes_to_uint32_le data).length < 2 := by
    rw [_bytes_to_uint32_le_length]
    omega
  simp only [h0, h2, if_false]
  rw [_uint32_to_bytes_length]
  unfold _xxtea_encrypt_uint32
  rw [encRounds_length, _bytes_to_uint32_le_length]

/-- With a length-preserving cipher, `encrypt_first_block` takes the splice
branch and its ciphertext prefix has length `min block data.length`. -/
theorem encrypt_first_block_eq_splice (data : Str) (fn : Str → Str)
    (block : Nat) (hfn : ∀ x, (fn x).length = x.length) :
    encrypt_first_block data fn block
      = fn (data.take (min block data.length))
        ++ data.drop (min block data.length) := by
  simp only [encrypt_first_block]
  have hlen : (fn (data.take (min block data.length))).length
      = min block data.length := by
    rw [hfn, List.length_take]
    omega
  rw [hlen]
  have hnot : ¬ data.length < min block data.length := by omega
  rw [if_neg hnot]

/-- With a length-preserving cipher, `encrypt_first_block` preserves the
total length. -/
theorem encrypt_first_block_length (data : Str) (fn : Str → Str)
    (block : Nat) (hfn : ∀ x, (fn x).length = x.length) :
    (encrypt_first_block data fn block).length = data.length := by
  rw [encrypt_first_block_eq_splice data fn block hfn]
  rw [List.length_append, hfn, List.length_take, List.length_drop]
  omega

/-- V2 first-block encryption of a word-aligned buffer preserves its
length (the first block is `min 512 len`, a multiple of 4 whenever `len`
is). -/
theorem encrypt_first_block_xxtea_length (data key : Str)
    (h : data.length % 4 = 0) :
    (encrypt_first_block data (fun d => xxtea_encrypt d key) 512).length
      = data.length := by
  simp only [encrypt_first_block]
  have htake : (data.take (min 512 data.length)).length
      = min 512 data.length := by
    rw [List.length_take]
    omega
  have henc : (xxtea_encrypt (data.take (min 512 data.length)) key).length
      = min 512 data.length := by
    rw [xxtea_encrypt_length_aligned _ _ (by rw [htake]; omega), htake]
  rw [henc, if_neg (by omega), List.length_append, henc, List.length_drop]
  omega

/-! ## Serializer length lemmas -/

theorem natToLEBytes_length : ∀ (c x : Nat), (natToLEBytes c x).length = c
  | 0, _ => rfl
  | c + 1, x => by
    simp only [natToLEBytes, List.length_cons]
    rw [natToLEBytes_length c]

theorem packI32_length (x : Int) : (packI32 x).length = 4 :=
  natToLEBytes_length 4 _

theorem packI16_length (x : Int) : (packI16 x).length = 2 :=
  natToLEBytes_length 2 _

theorem packU16_length (x : Nat) : (packU16 x).length = 2 :=
  natToLEBytes_length 2 _

theorem ni_transition_bytes_length (list_nodes : List ListNode)
    (t : Option Transition) : (ni_transition_bytes list_nodes t).length = 12 := by
  rcases t with _ | t
  · simp [ni_transition_bytes, List.length_append, packI32_length]
  · rcases h : list_node_by_id list_nodes t.actionNode with _ | ln <;>
      simp [ni_transition_bytes, h, List.length_append, packI32_length]

theorem ni_node_bytes_length (image_assets audio_assets : List Asset)
    (list_nodes : List ListNode) (node : StageNode) :
    (ni_node_bytes image_assets audio_assets list_nodes node).length = 44 := by
  have himg : (match node.image with
      | some img =>
        match image_name_to_pos image_assets img with
        | some p => packI32 p
        | none => packI32 (-1)
      | none => packI32 (-1) : Str).length = 4 := by
    rcases node.image with _ | img
    · simp [packI32_length]
    · rcases hip : image_name_to_pos image_assets img with _ | p <;>
        simp [hip, packI32_length]
  simp only [ni_node_bytes, List.length_append, himg, packI32_length,
    packI16_length, ni_transition_bytes_length]

theorem ni_header_length (stage_nodes : List StageNode)
    (image_assets audio_assets : List Asset) (pack_version : Int) :
    (packU16 1 ++ packI16 pack_version ++ packI32 512 ++ packI32 44
      ++ packI32 stage_nodes.length ++ packI32 image_assets.length
      ++ packI32 audio_assets.length ++ packI8 1
      ++ List.replicate 487 0).length = 512 := by
  simp [List.length_append, packU16_length, packI16_length, packI32_length,
    packI8]

theorem ni_nodes_flatten_length (image_assets audio_assets : List Asset)
    (list_nodes : List ListNode) : ∀ (nodes : List StageNode),
    ((nodes.map (ni_node_bytes image_assets audio_assets list_nodes)).flatten).length
      = 44 * nodes.length
  | [] => rfl
  | node :: rest => by
    simp only [List.map_cons, List.flatten_cons, List.length_append,
      List.length_cons, ni_node_bytes_length]
    rw [ni_nodes_flatten_length image_assets audio_assets list_nodes rest]
    omega

/-! ## Claim theorems -/

/-- C8: for every input graph (no well-formedness needed), the generated
`ni` file is exactly `512 + 44 * stageNodeCount` bytes long. -/
theorem C8_ni_length (stage_nodes : List StageNode)
    (action_nodes : List ActionNode) (image_assets audio_assets : List Asset)
    (list_nodes : List ListNode) (pack_version : Int) :
    (generate_ni stage_nodes action_nodes image_assets audio_assets
      list_nodes pack_version).length = 512 + 44 * stage_nodes.length := by
  simp only [generate_ni, List.length_append]
  rw [ni_nodes_flatten_length]
  have h := ni_header_length stage_nodes image_assets audio_assets pack_version
  simp only [List.length_append] at h
  omega

/-- C4: `encrypt_first_block` leaves every byte at offset 512 and beyond
unchanged, for any data and any cipher whose ciphertext length equals its
plaintext length. -/
theorem C4_first_block_frame (data : Str) (fn : Str → Str)
    (hfn : ∀ x, (fn x).length = x.length) :
    (encrypt_first_block data fn 512).drop 512 = data.drop 512 := by
  rw [encrypt_first_block_eq_splice data fn 512 hfn]
  rw [List.drop_append_eq_append_drop]
  have hlen : (fn (data.take (min 512 data.length))).length
      = min 512 data.length := by
    rw [hfn, List.length_take]
    omega
  rw [List.drop_eq_nil_of_le (by omega), hlen, List.drop_drop]
  simp only [List.nil_append]
  congr 1
  omega

theorem C4_first_block_frame_witness :
    (encrypt_first_block [1, 2, 3] (fun x => x.map (· + 1)) 512).drop 512
      = ([1, 2, 3] : Str).drop 512 :=
  C4_first_block_frame [1, 2, 3] (fun x => x.map (· + 1))
    (fun x => by rw [List.length_map])

/-- C10: V2 XXTEA encryption of a buffer whose length is at least 8 and
not a multiple of 4 emits `4 * ceil(len/4)` bytes, strictly more than the
input; hence `encrypt_first_block` under V2 lengthens any such input
shorter than 512 bytes (it returns the ciphertext alone). -/
theorem C10_unaligned_growth (data key : Str) (h : data.length % 4 ≠ 0)
    (h8 : 8 ≤ data.length) :
    (xxtea_encrypt data key).length = 4 * ((data.length + 3) / 4)
    ∧ data.length < (xxtea_encrypt data key).length
    ∧ (data.length < 512 →
        encrypt_first_block data (fun d => xxtea_encrypt d key) 512
          = xxtea_encrypt data key
        ∧ data.length
            < (encrypt_first_block data (fun d => xxtea_encrypt d key) 512).length) := by
  have hlen := xxtea_encrypt_length_unaligned data key h h8
  refine ⟨hlen, by omega, fun h512 => ?_⟩
  have htake : data.take (min 512 data.length) = data := by
    apply List.take_of_length_le
    omega
  have hgrow : data.length < (xxtea_encrypt data key).length := by omega
  constructor
  · simp only [encrypt_first_block, htake]
    rw [if_pos hgrow]
  · simp only [encrypt_first_block, htake]
    rw [if_pos hgrow]
    omega

theorem C10_unaligned_growth_witness :
    ([1, 2, 3, 4, 5, 6, 7, 8, 9] : Str).length % 4 ≠ 0
    ∧ 8 ≤ ([1, 2, 3, 4, 5, 6, 7, 8, 9] : Str).length
    ∧ (xxtea_encrypt [1, 2, 3, 4, 5, 6, 7, 8, 9] XXTEA_KEY_V2).length
        = 4 * ((([1, 2, 3, 4, 5, 6, 7, 8, 9] : Str).length + 3) / 4) :=
  ⟨by decide, by decide,
    (C10_unaligned_growth [1, 2, 3, 4, 5, 6, 7, 8, 9] XXTEA_KEY_V2
      (by decide) (by decide)).1⟩

/-- C3 (amended): XXTEA decryption inverts XXTEA encryption for every
byte buffer whose length is a multiple of 4 and at least 8 (at least two
32-bit words with no padding), for every 16-byte key.  (For non-aligned
buffers the encryptor pads to a whole word and the roundtrip returns the
padded buffer, see `C3_counterexample`.) -/
theorem C3_xxtea_roundtrip (data key : Str) (halign : data.length % 4 = 0)
    (hlen : 8 ≤ data.length) (hbytes : ∀ b ∈ data, b < 256)
    (hkey : key.length = 16) :
    xxtea_decrypt (xxtea_encrypt data key) key = data :=
  xxtea_roundtrip data key halign hlen hbytes

theorem C3_xxtea_roundtrip_witness :
    xxtea_decrypt (xxtea_encrypt [10, 20, 30, 40, 50, 60, 70, 80] XXTEA_KEY_V2)
      XXTEA_KEY_V2 = [10, 20, 30, 40, 50, 60, 70, 80] :=
  C3_xxtea_roundtrip [10, 20, 30, 40, 50, 60, 70, 80] XXTEA_KEY_V2
    (by decide) (by decide) (by decide) (by decide)

/-- C3 counterexample: a 9-byte buffer has word count 3 (at least 2), yet
decrypt-of-encrypt yields the 12-byte zero-padded buffer, not the
original. -/
theorem C3_counterexample :
    (9 + 3) / 4 ≥ 2
    ∧ xxtea_decrypt (xxtea_encrypt [1, 2, 3, 4, 5, 6, 7, 8, 9] XXTEA_KEY_V2)
        XXTEA_KEY_V2 ≠ [1, 2, 3, 4, 5, 6, 7, 8, 9] := by
  constructor
  · decide
  · decide

/-- C2 (amended): once the encrypted `ri` file holds at least 64 bytes,
the `bt` file is exactly 64 bytes and XXTEA-decrypting it with the
device-specific key derived from the pack UUID restores the first 64
bytes of the encrypted `ri`. -/
theorem C2_bt_block (ri_encrypted uuid_bytes : Str)
    (h64 : 64 ≤ ri_encrypted.length) (hb : ∀ b ∈ ri_encrypted, b < 256) :
    (generate_bt_v2 ri_encrypted uuid_bytes).length = 64
    ∧ xxtea_decrypt (generate_bt_v2 ri_encrypted uuid_bytes)
        (v2_compute_specific_key uuid_bytes) = ri_encrypted.take 64 := by
  have hmin : min 64 ri_encrypted.length = 64 := by omega
  have htake_len : (ri_encrypted.take 64).length = 64 := by
    rw [List.length_take]
    omega
  have htb : ∀ b ∈ ri_encrypted.take 64, b < 256 :=
    fun b hbm => hb b (List.take_subset _ _ hbm)
  constructor
  · simp only [generate_bt_v2, hmin]
    rw [xxtea_encrypt_length_aligned _ _ (by rw [htake_len]), htake_len]
  · simp only [generate_bt_v2, hmin]
    exact xxtea_roundtrip _ _ (by rw [htake_len]) (by rw [htake_len]; omega) htb

theorem C2_bt_block_witness :
    (generate_bt_v2 (List.replicate 72 1) (List.replicate 16 0)).length = 64
    ∧ xxtea_decrypt (generate_bt_v2 (List.replicate 72 1) (List.replicate 16 0))
        (v2_compute_specific_key (List.replicate 16 0))
      = (List.replicate 72 1 : Str).take 64 :=
  C2_bt_block (List.replicate 72 1) (List.replicate 16 0) (by decide) (by decide)

/-- C2 counterexample: a pack with no image assets has an empty `ri`, so
the encrypted `ri` is empty and the emitted `bt` is empty - not 64
bytes. -/
theorem C2_counterexample :
    generate_asset_binary [] = []
    ∧ encrypt_first_block [] (fun d => xxtea_encrypt d XXTEA_KEY_V2) 512 = []
    ∧ generate_bt_v2 [] (List.replicate 16 0) = []
    ∧ (generate_bt_v2 [] (List.replicate 16 0)).length ≠ 64 := by
  refine ⟨by decide, by decide, by decide, by decide⟩

/-- Position `i` of the audio asset list carries the node's audio name,
or the `'__BLANK_MP3__'` sentinel when the node declares none. -/
theorem build_audio_name_from : ∀ (nodes : List StageNode) (pos i : Nat),
    i < nodes.length →
    ((build_audio_asset_list_from pos nodes).getD i defaultAsset).name
      = ((nodes.getD i defaultStage).audio).getD blankSentinel
  | [], _, i, hi => by simp at hi
  | node :: rest, pos, 0, _ => by
    rcases h : node.audio with _ | a <;>
      simp [build_audio_asset_list_from, h]
  | node :: rest, pos, i + 1, hi => by
    simp only [build_audio_asset_list_from, List.getD_cons_succ]
    exact build_audio_name_from rest (pos + 1) i (by simp at hi; omega)

/-- C1 (amended): a StageNode with no audio gets the `'__BLANK_MP3__'`
sentinel in the audio asset list; the conversion loop substitutes the
canonical 104-byte `BLANK_MP3` for that slot, and the encrypted
`sf/000/<pos>` file is 104 bytes long. -/
theorem C1_blank_audio_slot (stage_nodes : List StageNode) (i : Nat)
    (transcoded : Str → Option Str) (key : Str)
    (hi : i < stage_nodes.length)
    (hnone : (stage_nodes.getD i defaultStage).audio = none) :
    ((build_audio_asset_list stage_nodes).getD i defaultAsset).name
      = blankSentinel
    ∧ mp3_data_for blankSentinel transcoded = BLANK_MP3
    ∧ BLANK_MP3.length = 104
    ∧ (sf_file_bytes blankSentinel transcoded
        (fun d => xxtea_encrypt d key)).length = 104 := by
  refine ⟨?_, ?_, by decide, ?_⟩
  · rw [build_audio_asset_list, build_audio_name_from stage_nodes 0 i hi, hnone]
    rfl
  · simp [mp3_data_for]
  · simp only [sf_file_bytes]
    rw [show mp3_data_for blankSentinel transcoded = BLANK_MP3 by
      simp [mp3_data_for]]
    rw [encrypt_first_block_xxtea_length _ _ (by decide)]
    decide

theorem C1_blank_audio_slot_witness :
    ((build_audio_asset_list [defaultStage]).getD 0 defaultAsset).name
      = blankSentinel
    ∧ mp3_data_for blankSentinel (fun _ => none) = BLANK_MP3
    ∧ BLANK_MP3.length = 104
    ∧ (sf_file_bytes blankSentinel (fun _ => none)
        (fun d => xxtea_encrypt d XXTEA_KEY_V2)).length = 104 :=
  C1_blank_audio_slot [defaultStage] 0 (fun _ => none) XXTEA_KEY_V2
    (by decide) (by decide)

/-- C1 counterexample: the blank MP3 constant is 104 bytes, not 108, and
so is the encrypted `sf` file written for a silent slot. -/
theorem C1_counterexample :
    BLANK_MP3.length = 104
    ∧ (sf_file_bytes blankSentinel (fun _ => none)
        (fun d => xxtea_encrypt d XXTEA_KEY_V2)).length = 104
    ∧ (104 : Nat) ≠ 108 := by
  refine ⟨by decide, ?_, by decide⟩
  simp only [sf_file_bytes]
  rw [show mp3_data_for blankSentinel (fun _ => none) = BLANK_MP3 by
    simp [mp3_data_for]]
  rw [encrypt_first_block_xxtea_length _ _ (by decide)]
  decide

/-- The two bytes at offsets 2 and 3 of the `ni` file hold the 16-bit
little-endian story pack version. -/
theorem ni_of_story_version_bytes (story : Story) :
    (ni_of_story story).getD 2 0
      = ((pack_version_of story).emod 65536).toNat % 256
    ∧ (ni_of_story story).getD 3 0
      = ((pack_version_of story).emod 65536).toNat / 256 % 256 := by
  simp only [ni_of_story, generate_ni, packU16, packI16, natToLEBytes,
    List.cons_append, List.nil_append]
  norm_num

/-- Decoder `decodeI16` inverts the two-byte little-endian encoding of an
in-range signed 16-bit value. -/
theorem decodeI16_emod (x : Int) (hlo : -32768 ≤ x) (hhi : x < 32768) :
    decodeI16 ((x.emod 65536).toNat % 256) ((x.emod 65536).toNat / 256 % 256)
      = x := by
  have hm : x.emod 65536 = x % 65536 := rfl
  rw [hm]
  have h1 : (0 : Int) ≤ x % 65536 := Int.emod_nonneg x (by norm_num)
  have h2 : x % 65536 < 65536 := Int.emod_lt_of_pos x (by norm_num)
  have h0 : x % 65536 = x ∨ x % 65536 = x + 65536 := by omega
  have h3 : (x % 65536).toNat < 65536 := by omega
  have h4 : (x % 65536).toNat % 256
      + 256 * ((x % 65536).toNat / 256 % 256) = (x % 65536).toNat := by
    omega
  have h5 : ((x % 65536).toNat : Int) = x % 65536 := by omega
  simp only [decodeI16, h4]
  split <;> omega

/-- C5 (amended): the signed 16-bit little-endian field at byte offset 2
of the `ni` header equals the story pack version from the input, which
defaults to 2 - not 1 - when the input declares no version. -/
theorem C5_ni_version_field (story : Story)
    (hlo : -32768 ≤ pack_version_of story)
    (hhi : pack_version_of story < 32768) :
    decodeI16 ((ni_of_story story).getD 2 0) ((ni_of_story story).getD 3 0)
      = pack_version_of story
    ∧ (story.version = none → pack_version_of story = 2) := by
  obtain ⟨h2, h3⟩ := ni_of_story_version_bytes story
  constructor
  · rw [h2, h3]
    exact decodeI16_emod (pack_version_of story) hlo hhi
  · intro h
    simp [pack_version_of, h]

theorem C5_ni_version_field_witness :
    decodeI16 ((ni_of_story ⟨[], [], none, some 7⟩).getD 2 0)
      ((ni_of_story ⟨[], [], none, some 7⟩).getD 3 0)
      = pack_version_of ⟨[], [], none, some 7⟩ :=
  (C5_ni_version_field ⟨[], [], none, some 7⟩ (by decide) (by decide)).1

/-- C5 counterexample: with no `version` in `story.json` the field holds
2, not 1. -/
theorem C5_counterexample :
    decodeI16 ((ni_of_story ⟨[], [], none, none⟩).getD 2 0)
      ((ni_of_story ⟨[], [], none, none⟩).getD 3 0) = 2
    ∧ (2 : Int) ≠ 1 := by
  constructor
  · decide
  · decide

/-- C6 (amended): the pack uuid is the story's top-level `uuid` whenever
one is declared; only otherwise is the first StageNode's uuid used, and a
fresh uuid only when there are no stage nodes at all. -/
theorem C6_pack_uuid_source (story : Story) (fresh : Str) :
    (∀ u, story.uuid = some u → story_uuid_of story fresh = u)
    ∧ (∀ node rest, story.uuid = none → story.stageNodes = node :: rest →
        story_uuid_of story fresh = node.uuid)
    ∧ (story.uuid = none → story.stageNodes = [] →
        story_uuid_of story fresh = fresh) := by
  refine ⟨fun u hu => ?_, fun node rest hn hs => ?_, fun hn hs => ?_⟩
  · simp [story_uuid_of, hu]
  · simp [story_uuid_of, hn, hs]
  · simp [story_uuid_of, hn, hs]

theorem C6_pack_uuid_source_witness :
    story_uuid_of ⟨[], [], some (str "aa"), none⟩ (str "ff") = str "aa"
    ∧ story_uuid_of ⟨[defaultStage], [], none, none⟩ (str "ff")
        = defaultStage.uuid
    ∧ story_uuid_of ⟨[], [], none, none⟩ (str "ff") = str "ff" :=
  ⟨(C6_pack_uuid_source ⟨[], [], some (str "aa"), none⟩ (str "ff")).1
      (str "aa") rfl,
   (C6_pack_uuid_source ⟨[defaultStage], [], none, none⟩ (str "ff")).2.1
      defaultStage [] rfl rfl,
   (C6_pack_uuid_source ⟨[], [], none, none⟩ (str "ff")).2.2 rfl rfl⟩

/-- C6 counterexample: in a single-node story (whose node is necessarily
the entrypoint) carrying a top-level uuid, the pack uuid - and hence REF -
comes from the story, not from the entrypoint StageNode. -/
theorem C6_counterexample :
    story_uuid_of
        ⟨[⟨str "66666666-7777-8888-9999-aaaaaaaaaaaa", none, none, none,
            none, defaultControl⟩], [],
          some (str "11111111-2222-3333-4444-555555555555"), none⟩
        (str "fresh")
      = str "11111111-2222-3333-4444-555555555555"
    ∧ str "11111111-2222-3333-4444-555555555555"
        ≠ str "66666666-7777-8888-9999-aaaaaaaaaaaa"
    ∧ pack_ref_of (str "11111111-2222-3333-4444-555555555555")
        = str "55555555" := by
  refine ⟨by decide, by decide, by decide⟩

/-- C7 (amended): a transition whose `action_ref` resolves to no
ActionNode does not abort the conversion: `validate_studio_pack` does not
inspect transitions and accepts the pack, and `generate_ni` encodes the
dangling transition as three `-1` fields. -/
theorem C7_dangling_action_ref (z : ZipFile) (node : StageNode)
    (rest : List StageNode) (t : Transition)
    (hstory : (str "story.json") ∈ z.names)
    (hnodes : z.story.stageNodes = node :: rest)
    (himg : ∀ a ∈ z.story.stageNodes.filterMap (·.image),
        (z.names.contains a || z.names.contains (str "assets/" ++ a)) = true)
    (haud : ∀ a ∈ z.story.stageNodes.filterMap (·.audio),
        (z.names.contains a || z.names.contains (str "assets/" ++ a)) = true)
    (hok : node.okTransition = some t)
    (hdangling : list_node_by_id (build_list_nodes_index z.story.actionNodes)
        t.actionNode = none) :
    validate_studio_pack z = true
    ∧ ni_transition_bytes (build_list_nodes_index z.story.actionNodes)
        node.okTransition = packI32 (-1) ++ packI32 (-1) ++ packI32 (-1) := by
  constructor
  · have hempty : z.story.stageNodes.isEmpty = false := by
      rw [hnodes]
      rfl
    have h1 : (z.story.stageNodes.filterMap (·.image)).filter
        (fun a => !(z.names.contains a
          || z.names.contains (str "assets/" ++ a))) = [] := by
      rw [List.filter_eq_nil_iff]
      intro a ha
      rw [himg a ha]
      decide
    have h2 : (z.story.stageNodes.filterMap (·.audio)).filter
        (fun a => !(z.names.contains a
          || z.names.contains (str "assets/" ++ a))) = [] := by
      rw [List.filter_eq_nil_iff]
      intro a ha
      rw [haud a ha]
      decide
    simp only [validate_studio_pack, if_pos hstory, hempty, h1, h2]
    rfl
  · simp [ni_transition_bytes, hok, hdangling]

theorem C7_dangling_action_ref_witness :
    validate_studio_pack
        ⟨[str "story.json"],
         ⟨[⟨str "n1", none, none, some ⟨str "ghost", 0⟩, none,
             defaultControl⟩], [], none, none⟩⟩ = true
    ∧ ni_transition_bytes (build_list_nodes_index ([] : List ActionNode))
        (some ⟨str "ghost", 0⟩)
      = packI32 (-1) ++ packI32 (-1) ++ packI32 (-1) := by
  have h := C7_dangling_action_ref
    ⟨[str "story.json"],
     ⟨[⟨str "n1", none, none, some ⟨str "ghost", 0⟩, none,
         defaultControl⟩], [], none, none⟩⟩
    ⟨str "n1", none, none, some ⟨str "ghost", 0⟩, none, defaultControl⟩
    [] ⟨str "ghost", 0⟩ (by decide) rfl (by decide) (by decide) rfl rfl
  exact h

/-- C7 counterexample: a concrete pack with a dangling `action_ref`
passes validation and produces an `ni` whose node carries `-1 -1 -1` OK
transition fields at offsets 8-19 - the run does not abort. -/
theorem C7_counterexample :
    validate_studio_pack
        ⟨[str "story.json"],
         ⟨[⟨str "n1", none, none, some ⟨str "ghost", 0⟩, none,
             defaultControl⟩], [], none, none⟩⟩ = true
    ∧ ((ni_of_story ⟨[⟨str "n1", none, none, some ⟨str "ghost", 0⟩, none,
          defaultControl⟩], [], none, none⟩).drop 520).take 12
        = packI32 (-1) ++ packI32 (-1) ++ packI32 (-1) := by
  refine ⟨by decide, by decide⟩

/-! ## String lemmas for the is_lunii_pack check -/

theorem isPrefixOf_append : ∀ (l t : Str), l.isPrefixOf (l ++ t) = true
  | [], t => by simp [List.isPrefixOf]
  | c :: l', t => by
    rw [List.cons_append]
    show (c == c && l'.isPrefixOf (l' ++ t)) = true
    rw [isPrefixOf_append l' t]
    simp

theorem isPrefixOf_le_length : ∀ (pat s : Str),
    pat.isPrefixOf s = true → pat.length ≤ s.length
  | [], s, _ => by simp
  | _ :: _, [], h => by simp [List.isPrefixOf] at h
  | p :: ps, c :: rest, h => by
    simp only [List.isPrefixOf, Bool.and_eq_true] at h
    have := isPrefixOf_le_length ps rest h.2
    simp only [List.length_cons]
    omega

theorem occurs_false_of_longer : ∀ (pat s : Str),
    s.length < pat.length → occurs pat s = false
  | pat, [], h => by
    rcases pat with _ | ⟨p, ps⟩
    · simp at h
    · rfl
  | pat, c :: rest, h => by
    simp only [occurs, Bool.or_eq_false_iff]
    constructor
    · cases hp : pat.isPrefixOf (c :: rest)
      · rfl
      · have := isPrefixOf_le_length pat (c :: rest) hp
        omega
    · exact occurs_false_of_longer pat rest
        (by simp only [List.length_cons] at h; omega)

theorem replaceAllGo_skip (pat : Str) : ∀ (l t : Str),
    replaceAllGo pat (l ++ t) l.length = replaceAllGo pat t 0
  | [], _ => rfl
  | c :: l', t => by
    simp only [List.cons_append, List.length_cons, replaceAllGo]
    exact replaceAllGo_skip pat l' t

theorem replaceAll_append_self (pat t : Str) (hne : pat ≠ []) :
    replaceAll pat (pat ++ t) = replaceAll pat t := by
  rcases pat with _ | ⟨p, ps⟩
  · exact absurd rfl hne
  · simp only [replaceAll, List.cons_append, replaceAllGo]
    rw [if_pos (by exact isPrefixOf_append (p :: ps) t)]
    have hl : (p :: ps).length - 1 = ps.length := by simp
    rw [hl]
    exact replaceAllGo_skip (p :: ps) ps t

theorem replaceAll_no_occurrence (pat : Str) : ∀ (s : Str),
    occurs pat s = false → replaceAll pat s = s := by
  intro s
  induction s with
  | nil => intro _; rfl
  | cons c rest ih =>
    intro hocc
    simp only [occurs, Bool.or_eq_false_iff] at hocc
    simp only [replaceAll, replaceAllGo]
    rw [if_neg (by simp [hocc.1])]
    have := ih hocc.2
    simp only [replaceAll] at this
    rw [this]

theorem refMark_length (r : Str) : (refMark r).length = 10 + r.length := by
  have h : contentMark.length = 9 := by decide
  simp only [refMark, List.length_append, h, List.length_cons, List.length_nil]
  omega

theorem refMark_ne_nil (r : Str) : refMark r ≠ [] := by
  intro h
  have hl := refMark_length r
  rw [h] at hl
  simp only [List.length_nil] at hl
  omega

/-- A name of the form `.content/<r>/<t>` contributes `t` to `ref_files`
whenever the prefix does not reoccur inside `t`. -/
theorem mem_ref_files_of (names : List Str) (r t : Str)
    (hmem : (refMark r ++ t) ∈ names) (hocc : occurs (refMark r) t = false) :
    t ∈ ref_files_of names r := by
  simp only [ref_files_of]
  have hrm : contentMark ++ r ++ [47] = refMark r := rfl
  rw [hrm, List.mem_map]
  refine ⟨refMark r ++ t, ?_, ?_⟩
  · rw [List.mem_filter]
    exact ⟨hmem, isPrefixOf_append _ _⟩
  · rw [replaceAll_append_self _ _ (refMark_ne_nil r)]
    exact replaceAll_no_occurrence _ _ hocc

/-- C9 (amended): `encode` returns the input path unchanged when the
input ZIP has at least one `.content/<REF>/` tree and *every* ref under
`.content/` carries the complete set `ni, li, ri, si, rf/, sf/` (the
source checks all refs, see `C9_counterexample`). -/
theorem C9_all_refs_complete (names : List Str) (inp outp : Str)
    (hne : refsOf names ≠ [])
    (hcomp : ∀ r ∈ refsOf names,
      (refMark r ++ str "ni") ∈ names ∧ (refMark r ++ str "li") ∈ names
      ∧ (refMark r ++ str "ri") ∈ names ∧ (refMark r ++ str "si") ∈ names
      ∧ (∃ t, (refMark r ++ t) ∈ names ∧ (str "rf/").isPrefixOf t = true
          ∧ occurs (refMark r) t = false)
      ∧ (∃ t, (refMark r ++ t) ∈ names ∧ (str "sf/").isPrefixOf t = true
          ∧ occurs (refMark r) t = false)) :
    convert_result names inp outp = inp := by
  have hlp : is_lunii_pack names = true := by
    have hcd : (names.filter (fun n => contentMark.isPrefixOf n)).isEmpty
        = false := by
      rcases hfil : names.filter (fun n => contentMark.isPrefixOf n)
        with _ | ⟨n, rest⟩
      · exfalso
        apply hne
        simp only [refsOf, hfil]
        rfl
      · rfl
    have hrefs : (refsOf names).isEmpty = false := by
      rcases h : refsOf names with _ | _
      · exact absurd h hne
      · rfl
    simp only [is_lunii_pack, hcd, hrefs, Bool.false_eq_true, if_false]
    rw [List.all_eq_true]
    intro r hr
    obtain ⟨hni, hli, hri, hsi, ⟨trf, htrf, hprf, horf⟩,
      ⟨tsf, htsf, hpsf, hosf⟩⟩ := hcomp r hr
    have hshort : ∀ (s : Str), s.length = 2 → occurs (refMark r) s = false := by
      intro s hs
      apply occurs_false_of_longer
      rw [hs, refMark_length]
      omega
    simp only [ref_ok, Bool.and_eq_true]
    refine ⟨⟨⟨⟨⟨?_, ?_⟩, ?_⟩, ?_⟩, ?_⟩, ?_⟩
    · exact List.elem_eq_true_of_mem
        (mem_ref_files_of names r (str "ni") hni (hshort _ (by decide)))
    · exact List.elem_eq_true_of_mem
        (mem_ref_files_of names r (str "li") hli (hshort _ (by decide)))
    · exact List.elem_eq_true_of_mem
        (mem_ref_files_of names r (str "ri") hri (hshort _ (by decide)))
    · exact List.elem_eq_true_of_mem
        (mem_ref_files_of names r (str "si") hsi (hshort _ (by decide)))
    · rw [List.any_eq_true]
      exact ⟨trf, mem_ref_files_of names r trf htrf horf, hprf⟩
    · rw [List.any_eq_true]
      exact ⟨tsf, mem_ref_files_of names r tsf htsf hosf, hpsf⟩
  simp [convert_result, hlp]

theorem C9_all_refs_complete_witness :
    convert_result
      [str ".content/AAAAAAAA/ni", str ".content/AAAAAAAA/li",
       str ".content/AAAAAAAA/ri", str ".content/AAAAAAAA/si",
       str ".content/AAAAAAAA/rf/000/00000000",
       str ".content/AAAAAAAA/sf/000/00000000"]
      (str "in.zip") (str "out.zip") = str "in.zip" := by
  apply C9_all_refs_complete
  · decide
  · have hr : refsOf
        [str ".content/AAAAAAAA/ni", str ".content/AAAAAAAA/li",
         str ".content/AAAAAAAA/ri", str ".content/AAAAAAAA/si",
         str ".content/AAAAAAAA/rf/000/00000000",
         str ".content/AAAAAAAA/sf/000/00000000"]
        = List.replicate 6 (str "AAAAAAAA") := by decide
    rw [hr]
    intro r hrm
    have hra := List.eq_of_mem_replicate hrm
    subst hra
    exact ⟨by decide, by decide, by decide, by decide,
      ⟨str "rf/000/00000000", by decide, by decide, by decide⟩,
      ⟨str "sf/000/00000000", by decide, by decide, by decide⟩⟩

/-- C9 counterexample: this ZIP *does* contain a complete
`.content/AAAAAAAA/` tree (all six required entries), yet because a second
ref `BBBBBBBB` under `.content/` is incomplete, `is_lunii_pack` rejects it
and `convert` proceeds to produce a fresh output instead of returning the
input path. -/
theorem C9_counterexample :
    (str ".content/AAAAAAAA/ni")
        ∈ [str ".content/AAAAAAAA/ni", str ".content/AAAAAAAA/li",
           str ".content/AAAAAAAA/ri", str ".content/AAAAAAAA/si",
           str ".content/AAAAAAAA/rf/000/00000000",
           str ".content/AAAAAAAA/sf/000/00000000", str ".content/BBBBBBBB/x"]
    ∧ (str ".content/AAAAAAAA/li")
        ∈ [str ".content/AAAAAAAA/ni", str ".content/AAAAAAAA/li",
           str ".content/AAAAAAAA/ri", str ".content/AAAAAAAA/si",
           str ".content/AAAAAAAA/rf/000/00000000",
           str ".content/AAAAAAAA/sf/000/00000000", str ".content/BBBBBBBB/x"]
    ∧ (str ".content/AAAAAAAA/ri")
        ∈ [str ".content/AAAAAAAA/ni", str ".content/AAAAAAAA/li",
           str ".content/AAAAAAAA/ri", str ".content/AAAAAAAA/si",
           str ".content/AAAAAAAA/rf/000/00000000",
           str ".content/AAAAAAAA/sf/000/00000000", str ".content/BBBBBBBB/x"]
    ∧ (str ".content/AAAAAAAA/si")
        ∈ [str ".content/AAAAAAAA/ni", str ".content/AAAAAAAA/li",
           str ".content/AAAAAAAA/ri", str ".content/AAAAAAAA/si",
           str ".content/AAAAAAAA/rf/000/00000000",
           str ".content/AAAAAAAA/sf/000/00000000", str ".content/BBBBBBBB/x"]
    ∧ (str ".content/AAAAAAAA/rf/000/00000000")
        ∈ [str ".content/AAAAAAAA/ni", str ".content/AAAAAAAA/li",
           str ".content/AAAAAAAA/ri", str ".content/AAAAAAAA/si",
           str ".content/AAAAAAAA/rf/000/00000000",
           str ".content/AAAAAAAA/sf/000/00000000", str ".content/BBBBBBBB/x"]
    ∧ (str ".content/AAAAAAAA/sf/000/00000000")
        ∈ [str ".content/AAAAAAAA/ni", str ".content/AAAAAAAA/li",
           str ".content/AAAAAAAA/ri", str ".content/AAAAAAAA/si",
           str ".content/AAAAAAAA/rf/000/00000000",
           str ".content/AAAAAAAA/sf/000/00000000", str ".content/BBBBBBBB/x"]
    ∧ convert_result
        [str ".content/AAAAAAAA/ni", str ".content/AAAAAAAA/li",
         str ".content/AAAAAAAA/ri", str ".content/AAAAAAAA/si",
         str ".content/AAAAAAAA/rf/000/00000000",
         str ".content/AAAAAAAA/sf/000/00000000", str ".content/BBBBBBBB/x"]
        (str "in.zip") (str "out.zip") = str "out.zip"
    ∧ str "out.zip" ≠ str "in.zip" := by
  refine ⟨by decide, by decide, by decide, by decide, by decide, by decide,
    by decide, by decide⟩

end SPG
